import Mathlib

/-!
Verification of the gobwmon bandwidth monitor: a shallow embedding of the
sample record (bwsample.go), the time-hierarchy aggregation engine (the
bwdb), the sampler delta pipeline (Iface.GetStats) and the live fan-out
(live.go), together with theorems settling the specification claims.

Conventions of the embedding:
* `time.Time` values are modelled as `Int` nanoseconds since the Unix epoch,
  in UTC.  The Go zero time (January 1, year 1, UTC) is the constant
  `zeroTime`.
* Machine integers (`uint64`) are modelled as `Nat` with explicit `% 2^64`
  where the Go code can overflow; well-formedness bounds appear as theorem
  hypotheses.
* The bolt store is modelled as four association-list buckets holding the
  decoded sample of each key (every value the engine writes is an encoded
  sample, and encode/decode round-trips), plus a fault flag `fail`: when the
  flag is set every batch fails, modelling bolt's atomic-batch contract
  (all mutations of one call commit, or none do and the error is returned).
* Fallible operations return `Except`/`Option` errors mirroring the Go
  error returns.
-/

/-- Nanoseconds in a minute. -/
def nsMin : Int := 60000000000

/-- Nanoseconds in an hour. -/
def nsHour : Int := 3600000000000

/-- Nanoseconds in a day. -/
def nsDay : Int := 86400000000000

/-- 2^64, the modulus of Go's uint64 arithmetic. -/
def U64 : Nat := 18446744073709551616

/-- Unix nanoseconds of Go's zero `time.Time` (0001-01-01T00:00:00Z):
-62135596800 seconds. -/
def zeroTime : Int := -62135596800000000000

/-- Civil date from a day count since the Unix epoch (standard civil-calendar
conversion, proleptic Gregorian): returns (year, month, day-of-month). -/
def civilFromDays (z0 : Int) : Int × Nat × Nat :=
  let z := z0 + 719468
  let era : Int := z.fdiv 146097
  let doe : Nat := (z - era * 146097).toNat
  let yoe : Nat := (doe - doe / 1460 + doe / 36524 - doe / 146096) / 365
  let y : Int := (yoe : Int) + era * 400
  let doy : Nat := doe - (365 * yoe + yoe / 4 - yoe / 100)
  let mp : Nat := (5 * doy + 2) / 153
  let d : Nat := doy - (153 * mp + 2) / 5 + 1
  let m : Nat := if mp < 10 then mp + 3 else mp - 9
  (if m ≤ 2 then y + 1 else y, m, d)

/-- Day count since the Unix epoch of a civil date (inverse of
`civilFromDays`). -/
def daysFromCivil (y : Int) (m d : Nat) : Int :=
  let y1 := if m ≤ 2 then y - 1 else y
  let era : Int := y1.fdiv 400
  let yoe : Nat := (y1 - era * 400).toNat
  let mp : Nat := if 2 < m then m - 3 else m + 9
  let doy : Nat := (153 * mp + 2) / 5 + d - 1
  let doe : Nat := 365 * yoe + yoe / 4 - yoe / 100 + doy
  era * 146097 + (doe : Int) - 719468

/-- Minute-of-hour of a UTC nanosecond timestamp (Go `Time.Minute`). -/
def minuteOf (t : Int) : Int := (t.fdiv nsMin) % 60

/-- Hour-of-day of a UTC nanosecond timestamp (Go `Time.Hour`). -/
def hourOf (t : Int) : Int := (t.fdiv nsHour) % 24

/-- Day-of-month of a UTC nanosecond timestamp (Go `Time.Day`). -/
def dayOf (t : Int) : Nat := (civilFromDays (t.fdiv nsDay)).2.2

/-- Month (1..12) of a UTC nanosecond timestamp (Go `Time.Month`). -/
def monthOf (t : Int) : Nat := (civilFromDays (t.fdiv nsDay)).2.1

/-- Year of a UTC nanosecond timestamp (Go `Time.Year`). -/
def yearOf (t : Int) : Int := (civilFromDays (t.fdiv nsDay)).1

/-- Left-pad a number to two decimal digits (Go format verbs `01`, `02`,
`15`, `04`). -/
def pad2 (n : Nat) : String := if n < 10 then "0" ++ Nat.repr n else Nat.repr n

/-- Left-pad a number to four decimal digits (Go format verb `2006`). -/
def pad4 (n : Nat) : String :=
  if n < 10 then "000" ++ Nat.repr n
  else if n < 100 then "00" ++ Nat.repr n
  else if n < 1000 then "0" ++ Nat.repr n
  else Nat.repr n

/-- The four time-label layouts of the engine: `minFmt = 010220061504`,
`hourFmt = 0102200615`, `dayFmt = 01022006`, `monFmt = 012006`. -/
inductive TsFmt
  | min
  | hour
  | day
  | mon
deriving DecidableEq, Repr

/-- `ts.Format(fmt)` for the four bucket layouts: month, day-of-month and
year (MMDDYYYY), plus hour and minute as the layout requires. -/
def fmtLabel (f : TsFmt) (t : Int) : String :=
  let c := civilFromDays (t.fdiv nsDay)
  let y := pad4 c.1.toNat
  let mo := pad2 c.2.1
  let d := pad2 c.2.2
  match f with
  | .min => mo ++ d ++ y ++ pad2 (hourOf t).toNat ++ pad2 (minuteOf t).toNat
  | .hour => mo ++ d ++ y ++ pad2 (hourOf t).toNat
  | .day => mo ++ d ++ y
  | .mon => mo ++ y

/-- `prevHour` of part_004: parse the timestamp's hour label back (that is,
truncate to the start of its UTC hour) and add one hour.  The result is the
end of the current hour. -/
def prevHour (t : Int) : Int := (t.fdiv nsHour + 1) * nsHour

/-- `prevDay` of part_004: truncate to the start of the UTC day and add
24 hours; the end of the current day. -/
def prevDay (t : Int) : Int := (t.fdiv nsDay + 1) * nsDay

/-- `prevMon` of part_004: decrement the month (December of the previous
year when the month is January) and parse `YYYY-MM`, i.e. the start of the
month BEFORE the timestamp's month.  Unlike `prevHour` and `prevDay` this
does not yield the end of the current period. -/
def prevMon (t : Int) : Int :=
  let c := civilFromDays (t.fdiv nsDay)
  let ym : Int × Nat := if c.2.1 = 1 then (c.1 - 1, 12) else (c.1, c.2.1 - 1)
  daysFromCivil ym.1 ym.2 1 * nsDay

/-- Start of the current UTC hour of `t`; formalises the spec phrase
"start-of-current-hour(T)". -/
def startOfCurrentHour (t : Int) : Int := (t.fdiv nsHour) * nsHour

/-- Start of the current UTC day of `t`; formalises the spec phrase
"start-of-current-day(T)". -/
def startOfCurrentDay (t : Int) : Int := (t.fdiv nsDay) * nsDay

/-- Start of the current UTC month of `t`; formalises the spec phrase
"start-of-current-month(T)". -/
def startOfCurrentMonth (t : Int) : Int :=
  let c := civilFromDays (t.fdiv nsDay)
  daysFromCivil c.1 c.2.1 1 * nsDay

/-- The BWSample record of bwsample.go: a timestamp with nanosecond
precision plus upstream and downstream byte counts (uint64 values). -/
structure BWSample where
  Ts : Int
  BytesUp : Nat
  BytesDown : Nat
deriving DecidableEq, Repr

/-- `BWSample.After(ts) = !s.Ts.Before(ts)`: the sample is at or after the
given time. -/
def BWSample.After (s : BWSample) (t : Int) : Bool := !(s.Ts < t)

/-- `BWSample.Add`: component-wise uint64 addition of the byte counts into
the receiver.  The receiver's timestamp is left untouched (the Go method
only touches BytesUp and BytesDown); the impossible type-mismatch error of
the Go code cannot arise in this single-variant model. -/
def BWSample.Add (s x : BWSample) : BWSample :=
  { s with
    BytesUp := (s.BytesUp + x.BytesUp) % U64
    BytesDown := (s.BytesDown + x.BytesDown) % U64 }

/-- `NewBwSample()`: the zero sample (Go zero time, zero byte counts). -/
def NewBwSample : BWSample := { Ts := zeroTime, BytesUp := 0, BytesDown := 0 }

/-- Little-endian byte list (each byte a `Nat < 256`) of width `w` for a
value `v` (the layout of the unsafe 64-bit stores of Encode). -/
def natToLE : Nat → Nat → List Nat
  | 0, _ => []
  | w + 1, v => v % 256 :: natToLE w (v / 256)

/-- Value of a little-endian byte list. -/
def leToNat : List Nat → Nat
  | [] => 0
  | b :: rest => b + 256 * leToNat rest

/-- Two's-complement encoding of an int64 into a Nat below 2^64 (what the
unsafe 8-byte store of `Ts.UnixNano()` writes). -/
def tsEnc (t : Int) : Nat := (t % (U64 : Int)).toNat

/-- Read a Nat below 2^64 back as a two's-complement int64. -/
def int64OfNat (n : Nat) : Int :=
  if n < 9223372036854775808 then (n : Int) else (n : Int) - (U64 : Int)

/-- `BWSample.Encode`: the fixed 24-byte layout, 8-byte little-endian
nanosecond epoch then 8-byte upstream then 8-byte downstream counts. -/
def BWSample.Encode (s : BWSample) : List Nat :=
  natToLE 8 (tsEnc s.Ts) ++ natToLE 8 s.BytesUp ++ natToLE 8 s.BytesDown

/-- Errors of the engine and sample codec. -/
inductive DbErr
  | notOpen
  | storage
  | invalidBuffer
deriving DecidableEq, Repr

/-- `BWSample.Decode`: reject any buffer whose length is not exactly 24
bytes (errInvalidBufferSize), otherwise read the three 64-bit fields. -/
def BWSample.Decode (b : List Nat) : Except DbErr BWSample :=
  if b.length ≠ 24 then .error .invalidBuffer
  else
    .ok
      { Ts := int64OfNat (leToNat (b.take 8))
        BytesUp := leToNat ((b.drop 8).take 8)
        BytesDown := leToNat (b.drop 16) }

/-- Whether a Decode result is a success. -/
def decodeOk : Except DbErr BWSample → Bool
  | .ok _ => true
  | .error _ => false

/-- A bolt bucket, modelled as an association list from label keys to the
decoded sample stored under them. -/
abbrev Bucket : Type := List (String × BWSample)

/-- `bkt.Get(key)`. -/
def bucketGet : Bucket → String → Option BWSample
  | [], _ => none
  | (k, v) :: rest, key => if k = key then some v else bucketGet rest key

/-- `bkt.Put(key, s)`: replace the entry of the key, or append a fresh
one. -/
def bucketPut : Bucket → String → BWSample → Bucket
  | [], key, s => [(key, s)]
  | (k, v) :: rest, key, s =>
    if k = key then (key, s) :: rest else (k, v) :: bucketPut rest key s

/-- `updateVal` of part_004, the insert-or-sum primitive: when the key is
absent store the sample itself; otherwise decode the stored value into a
fresh accumulator `sold`, fold the sample into it (`sold.Add(s)` — never
into `s`) and store the accumulator back. -/
def updateVal (bkt : Bucket) (key : String) (s : BWSample) : Bucket :=
  match bucketGet bkt key with
  | none => bucketPut bkt key s
  | some sold => bucketPut bkt key (sold.Add s)

/-- The ForEach loop of `sumAndShift`: fold every entry into the
accumulator (`s.Add(sx)` then `s.SetTS(sx.TS())`) while deleting it from
the source. -/
def sumLoop : List (String × BWSample) → BWSample → BWSample
  | [], acc => acc
  | (_, v) :: rest, acc => sumLoop rest { acc.Add v with Ts := v.Ts }

/-- `sumAndShift` of part_004: drain the pull bucket entirely into an
accumulator seeded with `NewBwSample` and insert-or-sum the accumulator
into the put bucket at the put key (the final `updateVal` call is
unconditional). -/
def sumAndShift (pullBkt putBkt : Bucket) (putKey : String) :
    Bucket × Bucket :=
  let acc := sumLoop pullBkt NewBwSample
  ([], updateVal putBkt putKey acc)

/-- The four named buckets of the store. -/
inductive BktId
  | min
  | hour
  | day
  | mon
deriving DecidableEq, Repr

/-- The persistent store: four buckets plus a fault flag.  When `fail` is
set, every batch returns a storage error and commits nothing, modelling
bolt's atomic-batch contract. -/
structure Store where
  fail : Bool
  min : Bucket
  hour : Bucket
  day : Bucket
  mon : Bucket
deriving DecidableEq

/-- Bucket of a store by name. -/
def Store.get (st : Store) : BktId → Bucket
  | .min => st.min
  | .hour => st.hour
  | .day => st.day
  | .mon => st.mon

/-- Replace a named bucket of a store. -/
def Store.set (st : Store) : BktId → Bucket → Store
  | .min, b => { st with min := b }
  | .hour, b => { st with hour := b }
  | .day, b => { st with day := b }
  | .mon, b => { st with mon := b }

/-- Insert-or-sum into a named bucket of the store. -/
def storeUpd (st : Store) (i : BktId) (key : String) (s : BWSample) : Store :=
  st.set i (updateVal (st.get i) key s)

/-- Run `sumAndShift` between two named buckets of the store. -/
def sumShiftStore (st : Store) (src dst : BktId) (key : String) : Store :=
  let r := sumAndShift (st.get src) (st.get dst) key
  (st.set src r.1).set dst r.2

/-- The engine state of part_004: open flag, store handle, live ring
(`hist`, newest first), configured ring size, and the `last` in-order
timestamp (Go zero time when empty). -/
structure Bwdb where
  dbOpen : Bool
  store : Store
  hist : List BWSample
  histSize : Nat
  last : Int
deriving DecidableEq

/-- `defaultHistSize = 60`. -/
def defaultHistSize : Nat := 60

/-- `NewBwDb` with the store freshly opened: non-positive live sizes are
coerced to the default, the ring starts empty and `last` is the zero
time. -/
def NewBwDb (liveSize : Int) : Bwdb :=
  { dbOpen := true
    store := { fail := false, min := [], hour := [], day := [], mon := [] }
    hist := []
    histSize := if liveSize ≤ 0 then defaultHistSize else liveSize.toNat
    last := zeroTime }

/-- The batch body of `Add` for an in-order sample: the three rollup
checks against `last` (shift when the hour, day or month label changed,
in that order), then insert-or-sum the sample into all four buckets.
`last1` is the value of `db.last` at batch time (already set to the
sample's timestamp when it was zero at entry). -/
def addBatch (st : Store) (s : BWSample) (last1 : Int) : Store :=
  let st1 :=
    if fmtLabel .hour s.Ts = fmtLabel .hour last1 then st
    else sumShiftStore st .min .hour (fmtLabel .hour last1)
  let st2 :=
    if fmtLabel .day s.Ts = fmtLabel .day last1 then st1
    else sumShiftStore st1 .hour .day (fmtLabel .day last1)
  let st3 :=
    if fmtLabel .mon s.Ts = fmtLabel .mon last1 then st2
    else sumShiftStore st2 .day .mon (fmtLabel .mon last1)
  let st4 := storeUpd st3 .min (fmtLabel .min s.Ts) s
  let st5 := storeUpd st4 .hour (fmtLabel .hour s.Ts) s
  let st6 := storeUpd st5 .day (fmtLabel .day s.Ts) s
  storeUpd st6 .mon (fmtLabel .mon s.Ts) s

/-- `addOutOfOrder` of part_004: pick a single destination bucket by
comparing the sample's clock components against `last` (minute-of-hour,
then hour-of-day, then day-of-month, else the month bucket) and
insert-or-sum only there, inside one batch.  The live ring and `last` are
untouched. -/
def Bwdb.addOutOfOrder (db : Bwdb) (s : BWSample) : Bwdb × Option DbErr :=
  if db.dbOpen = false then (db, some .notOpen)
  else if db.store.fail then (db, some .storage)
  else
    let st :=
      if minuteOf s.Ts = minuteOf db.last then
        storeUpd db.store .min (fmtLabel .min s.Ts) s
      else if hourOf s.Ts = hourOf db.last then
        storeUpd db.store .hour (fmtLabel .hour s.Ts) s
      else if dayOf s.Ts = dayOf db.last then
        storeUpd db.store .day (fmtLabel .day s.Ts) s
      else
        storeUpd db.store .mon (fmtLabel .mon s.Ts) s
    ({ db with store := st }, none)

/-- `Add` of part_004: delegate samples that are not after `last` to the
out-of-order path; otherwise push to the front of the live ring and trim
from the back to the ring size, set `last` to the sample's timestamp if it
was zero, run the batch (rollup shifts plus the four insert-or-sums), and
on success advance `last` to the sample's timestamp.  On a batch error the
store is unchanged and the error is returned. -/
def Bwdb.Add (db : Bwdb) (s : BWSample) : Bwdb × Option DbErr :=
  if db.dbOpen = false then (db, some .notOpen)
  else if s.After db.last = false then db.addOutOfOrder s
  else
    let hist1 := (s :: db.hist).take db.histSize
    let last1 := if db.last = zeroTime then s.Ts else db.last
    let db1 := { db with hist := hist1, last := last1 }
    if db.store.fail then (db1, some .storage)
    else ({ db1 with store := addBatch db.store s last1, last := s.Ts }, none)

/-- The ForEach loop of `shiftIfOlder`: entries whose timestamp is before
the cutoff are deleted from the source and insert-or-summed into the
destination under their own label in the destination layout; the rest are
kept. -/
def shiftEntries :
    List (String × BWSample) → Int → TsFmt → Bucket →
      List (String × BWSample) × Bucket
  | [], _, _, dst => ([], dst)
  | (k, v) :: rest, tcheck, fmt, dst =>
    if v.Ts < tcheck then
      shiftEntries rest tcheck fmt (updateVal dst (fmtLabel fmt v.Ts) v)
    else
      let r := shiftEntries rest tcheck fmt dst
      ((k, v) :: r.1, r.2)

/-- `shiftIfOlder` of part_004: one batch sweeping a source bucket into a
destination bucket with a time cutoff. -/
def shiftIfOlder (st : Store) (src dst : BktId) (tcheck : Int)
    (fmt : TsFmt) : Except DbErr Store :=
  if st.fail then .error .storage
  else
    let r := shiftEntries (st.get src) tcheck fmt (st.get dst)
    .ok ((st.set src r.1).set dst r.2)

/-- `Rebase` of part_004: called on startup; three sequential batches shift
stale minutes into hours (cutoff `prevHour`), stale hours into days
(cutoff `prevDay`) and stale days into months (cutoff `prevMon`). -/
def Bwdb.Rebase (db : Bwdb) (ts : Int) : Bwdb × Option DbErr :=
  if db.dbOpen = false then (db, some .notOpen)
  else
    match shiftIfOlder db.store .min .hour (prevHour ts) .hour with
    | .error e => (db, some e)
    | .ok st1 =>
      match shiftIfOlder st1 .hour .day (prevDay ts) .day with
      | .error e => ({ db with store := st1 }, some e)
      | .ok st2 =>
        match shiftIfOlder st2 .day .mon (prevMon ts) .mon with
        | .error e => ({ db with store := st2 }, some e)
        | .ok st3 => ({ db with store := st3 }, none)

/-- Fold a list of samples into the engine through `Add`, keeping only the
final state (the producer/consumer insert path). -/
def addAll (db : Bwdb) : List BWSample → Bwdb
  | [] => db
  | s :: rest => addAll (db.Add s).1 rest

/-- The sampler state of part_000 (the reopen-capable Iface): the two
cumulative counters last observed along with whether the two statistics
file handles are held.  The public open flag is irrelevant to GetStats,
which never consults it. -/
structure IfaceState where
  lastSend : Nat
  lastRecv : Nat
  handlesOpen : Bool
deriving DecidableEq, Repr

/-- A fresh `Iface` from `NewIfmon`: zero counters, handles as the initial
open attempt left them. -/
def newIfmon (opened : Bool) : IfaceState :=
  { lastSend := 0, lastRecv := 0, handlesOpen := opened }

/-- `closeInterfaces` of part_000: drop both handles and zero both
`last` counters (the interface-disappearance cleanup). -/
def closeInterfaces (st : IfaceState) : IfaceState :=
  { st with handlesOpen := false, lastSend := 0, lastRecv := 0 }

/-- The environment of one GetStats call: whether reopening the statistics
files would succeed, and the cumulative values the two reads deliver
(`none` models a failed seek/read/parse). -/
structure StatEnv where
  reopenOk : Bool
  readRecv : Option Nat
  readSend : Option Nat

/-- uint64 subtraction `a - b` (wrap-around modulo 2^64); callers keep
`b < 2^64`. -/
def sub64 (a b : Nat) : Nat := (a + U64 - b) % U64

/-- `GetStats` of part_000: reopen closed handles (returning zero deltas
and no error when that fails); a failed read closes the handles, zeroes
both counters and returns zero deltas with no error; on success the deltas
are the uint64 differences against the stored counters, except that a
delta whose counter was zero at entry is reported as zero, and the
counters are updated to the new cumulative values. -/
def getStats (st : IfaceState) (env : StatEnv) : IfaceState × Nat × Nat :=
  if st.handlesOpen = false ∧ env.reopenOk = false then (st, 0, 0)
  else
    let st1 := { st with handlesOpen := true }
    match env.readRecv with
    | none => (closeInterfaces st1, 0, 0)
    | some rx =>
      match env.readSend with
      | none => (closeInterfaces st1, 0, 0)
      | some tx =>
        let sendInt := if st1.lastSend = 0 then 0 else sub64 tx st1.lastSend
        let recvInt := if st1.lastRecv = 0 then 0 else sub64 rx st1.lastRecv
        ({ st1 with lastSend := tx, lastRecv := rx }, sendInt, recvInt)

/-- A live subscriber handle of live.go, abstracted by whether its `Write`
succeeds for a given broadcast. -/
structure LiveConsumer where
  writeOk : String → BWSample → Bool

/-- The live fan-out of live.go: the next id to hand out and the map of
registered subscribers. -/
structure LiveFeeder where
  liveIds : Nat
  liveConsumers : List (Nat × LiveConsumer)

/-- Result of one `ServiceLiveFeeders` call, instrumented with the ids
whose `Write` was invoked and the ids that were removed and closed. -/
structure ServiceResult where
  feeder : LiveFeeder
  written : List Nat
  closed : List Nat
  err : Option String

/-- The broadcast loop of `ServiceLiveFeeders`: call `Write` on every
subscriber; a subscriber whose `Write` errors is deleted from the map and
`Close` is called on it. -/
def serviceLoop (name : String) (s : BWSample) :
    List (Nat × LiveConsumer) →
      List (Nat × LiveConsumer) × List Nat × List Nat
  | [] => ([], [], [])
  | (k, c) :: rest =>
    let r := serviceLoop name s rest
    if c.writeOk name s then ((k, c) :: r.1, k :: r.2.1, r.2.2)
    else (r.1, k :: r.2.1, k :: r.2.2)

/-- `ServiceLiveFeeders` of live.go; the producer-facing error is always
nil. -/
def LiveFeeder.Service (lf : LiveFeeder) (name : String) (s : BWSample) :
    ServiceResult :=
  let r := serviceLoop name s lf.liveConsumers
  { feeder := { lf with liveConsumers := r.1 }
    written := r.2.1
    closed := r.2.2
    err := none }

/-- A sequence of broadcasts, collecting every id whose `Write` was
invoked across the whole sequence. -/
def serviceSeq (lf : LiveFeeder) :
    List (String × BWSample) → LiveFeeder × List Nat
  | [] => (lf, [])
  | (n, s) :: rest =>
    let r := lf.Service n s
    let rr := serviceSeq r.feeder rest
    (rr.1, r.written ++ rr.2)

/-- C2 counterexample inputs: two samples at the same key, the second with
the later timestamp. -/
def csOld : BWSample := { Ts := 100, BytesUp := 1, BytesDown := 1 }

/-- Second C2 counterexample sample (the maximal-timestamp contributor). -/
def csNew : BWSample := { Ts := 200, BytesUp := 2, BytesDown := 3 }

/-- A subscriber whose Write always fails. -/
def badConsumer : LiveConsumer := { writeOk := fun _ _ => false }

/-- A subscriber whose Write always succeeds. -/
def goodConsumer : LiveConsumer := { writeOk := fun _ _ => true }

/-- A concrete fan-out with one good and one bad subscriber. -/
def lfEx : LiveFeeder :=
  { liveIds := 2, liveConsumers := [(1, goodConsumer), (2, badConsumer)] }

/-- A concrete engine whose store fails every batch, with `last` still the
zero time (no sample ever persisted). -/
def dbFail : Bwdb :=
  { dbOpen := true
    store := { fail := true, min := [], hour := [], day := [], mon := [] }
    hist := []
    histSize := 60
    last := zeroTime }

/-- A concrete engine whose `last` sits at 02:30 UTC on 2016-02-15. -/
def dbC7 : Bwdb :=
  { dbOpen := true
    store := { fail := false, min := [], hour := [], day := [], mon := [] }
    hist := []
    histSize := 60
    last := daysFromCivil 2016 2 15 * nsDay + 2 * nsHour + 30 * nsMin }

/-- An out-of-order sample one hour before `dbC7.last`, with the same
minute-of-hour. -/
def sC7 : BWSample :=
  { Ts := daysFromCivil 2016 2 15 * nsDay + nsHour + 30 * nsMin
    BytesUp := 9
    BytesDown := 11 }

/-- A day-bucket entry dated 2016-01-20 under its MMDDYYYY label. -/
def dayEntryJan : String × BWSample :=
  ("01202016",
    { Ts := daysFromCivil 2016 1 20 * nsDay, BytesUp := 5, BytesDown := 7 })

/-- An engine holding only that January day entry. -/
def dbReb : Bwdb :=
  { dbOpen := true
    store := { fail := false, min := [], hour := [], day := [dayEntryJan], mon := [] }
    hist := []
    histSize := 60
    last := zeroTime }

/-- 2016-02-15 00:00:00 UTC in nanoseconds. -/
def febT : Int := daysFromCivil 2016 2 15 * nsDay

/-- A third concrete in-order sample for the ring witness. -/
def cs3 : BWSample := { Ts := 300, BytesUp := 5, BytesDown := 6 }

theorem length_natToLE (w v : Nat) : (natToLE w v).length = w := by
  induction w generalizing v with
  | zero => rfl
  | succ w ih => simp [natToLE, ih]

theorem leToNat_natToLE (w v : Nat) : leToNat (natToLE w v) = v % 256 ^ w := by
  induction w generalizing v with
  | zero => simp [natToLE, leToNat, Nat.mod_one]
  | succ w ih =>
    rw [natToLE, leToNat, ih, pow_succ, mul_comm (256 ^ w) 256, Nat.mod_mul]

theorem take_len_append (l1 l2 : List Nat) (n : Nat) (h : l1.length = n) :
    (l1 ++ l2).take n = l1 := by
  subst h
  exact List.take_left l1 l2

theorem drop_len_append (l1 l2 : List Nat) (n : Nat) (h : l1.length = n) :
    (l1 ++ l2).drop n = l2 := by
  subst h
  exact List.drop_left l1 l2

theorem leToNat_natToLE_of_lt (w v : Nat) (h : v < 256 ^ w) :
    leToNat (natToLE w v) = v := by
  rw [leToNat_natToLE, Nat.mod_eq_of_lt h]

theorem tsEnc_lt (t : Int) : tsEnc t < U64 := by
  simp only [tsEnc, U64]
  omega

theorem int64OfNat_tsEnc (t : Int) (h1 : -(2 ^ 63) ≤ t) (h2 : t < 2 ^ 63) :
    int64OfNat (tsEnc t) = t := by
  simp only [int64OfNat, tsEnc, U64]
  split <;> omega

/-- C5.  Round-trip of the fixed 24-byte sample codec: for every in-range
sample, decoding its encoding reconstructs it exactly (nanosecond
timestamp and both byte counts); decoding any buffer whose length is not
24 fails with the invalid-buffer error; decoding succeeds on every
24-byte buffer. -/
theorem c5_encode_decode_roundtrip (s : BWSample) (b : List Nat)
    (h1 : -(2 ^ 63) ≤ s.Ts) (h2 : s.Ts < 2 ^ 63)
    (h3 : s.BytesUp < U64) (h4 : s.BytesDown < U64) :
    BWSample.Decode s.Encode = .ok s ∧
      (b.length ≠ 24 → BWSample.Decode b = .error .invalidBuffer) ∧
      (b.length = 24 → decodeOk (BWSample.Decode b) = true) := by
  have hU : U64 = 256 ^ 8 := by decide
  refine ⟨?_, ?_, ?_⟩
  · have hlen : s.Encode.length = 24 := by
      simp [BWSample.Encode, length_natToLE]
    have htake8 :
        s.Encode.take 8 = natToLE 8 (tsEnc s.Ts) := by
      rw [BWSample.Encode, List.append_assoc]
      exact take_len_append _ _ 8 (length_natToLE 8 (tsEnc s.Ts))
    have hdrop8 :
        s.Encode.drop 8 = natToLE 8 s.BytesUp ++ natToLE 8 s.BytesDown := by
      rw [BWSample.Encode, List.append_assoc]
      exact drop_len_append _ _ 8 (length_natToLE 8 (tsEnc s.Ts))
    have hmid :
        (s.Encode.drop 8).take 8 = natToLE 8 s.BytesUp := by
      rw [hdrop8]
      exact take_len_append _ _ 8 (length_natToLE 8 s.BytesUp)
    have hdrop16 : s.Encode.drop 16 = natToLE 8 s.BytesDown := by
      have h16 : s.Encode.drop 16 = (s.Encode.drop 8).drop 8 := by
        rw [List.drop_drop]
      rw [h16, hdrop8]
      exact drop_len_append _ _ 8 (length_natToLE 8 s.BytesUp)
    rw [BWSample.Decode, if_neg (by rw [hlen]; exact fun h => h rfl)]
    rw [htake8, hmid, hdrop16,
      leToNat_natToLE_of_lt 8 (tsEnc s.Ts) (hU ▸ tsEnc_lt s.Ts),
      leToNat_natToLE_of_lt 8 s.BytesUp (hU ▸ h3),
      leToNat_natToLE_of_lt 8 s.BytesDown (hU ▸ h4),
      int64OfNat_tsEnc s.Ts h1 h2]
  · intro h
    rw [BWSample.Decode, if_pos h]
  · intro h
    rw [BWSample.Decode, if_neg (by rw [h]; exact fun hc => hc rfl)]
    rfl

/-- Witness for C5 at a concrete sample and buffer. -/
theorem c5_encode_decode_witness :
    (-(2 ^ 63) ≤ (1452211200000000000 : Int)) ∧
      ((1452211200000000000 : Int) < 2 ^ 63) ∧ (42 < U64) ∧ (7 < U64) ∧
      (BWSample.Decode
          (BWSample.Encode { Ts := 1452211200000000000, BytesUp := 42, BytesDown := 7 }) =
        .ok { Ts := 1452211200000000000, BytesUp := 42, BytesDown := 7 } ∧
        ((List.replicate 23 0).length ≠ 24 →
          BWSample.Decode (List.replicate 23 0) = .error .invalidBuffer) ∧
        ((List.replicate 23 0).length = 24 →
          decodeOk (BWSample.Decode (List.replicate 23 0)) = true)) :=
  ⟨by decide, by decide, by decide, by decide,
    c5_encode_decode_roundtrip
      { Ts := 1452211200000000000, BytesUp := 42, BytesDown := 7 }
      (List.replicate 23 0) (by decide) (by decide) (by decide) (by decide)⟩

theorem sub64_of_le (a b : Nat) (hba : b ≤ a) (ha : a < U64) :
    sub64 a b = a - b := by
  simp only [sub64, U64] at *
  omega

theorem sub64_wrap (a b : Nat) (hab : a < b) (hb : b < U64) :
    sub64 a b = U64 - (b - a) := by
  simp only [sub64, U64] at *
  omega

/-- C6.  A successful GetStats that reads cumulative values `rx` and `tx`
returns `tx - last_send` and `rx - last_recv`, except that a delta whose
`last` counter was zero at entry is reported as zero; it then stores `tx`
and `rx` into the counters.  Consequently the first successful read after
an open (`newIfmon`, zero counters) or a reopen (the state left by
`closeInterfaces`) reports (0, 0). -/
theorem c6_getstats_delta (st : IfaceState) (env : StatEnv) (rx tx : Nat)
    (hr : env.readRecv = some rx) (hs : env.readSend = some tx)
    (hopen : st.handlesOpen = true ∨ env.reopenOk = true)
    (h1 : st.lastSend ≤ tx) (h2 : st.lastRecv ≤ rx)
    (htx : tx < U64) (hrx : rx < U64) :
    (getStats st env).2.1 = (if st.lastSend = 0 then 0 else tx - st.lastSend) ∧
      (getStats st env).2.2 =
        (if st.lastRecv = 0 then 0 else rx - st.lastRecv) ∧
      (getStats st env).1.lastSend = tx ∧
      (getStats st env).1.lastRecv = rx ∧
      (getStats (closeInterfaces st) env).2.1 = 0 ∧
      (getStats (closeInterfaces st) env).2.2 = 0 ∧
      (getStats (newIfmon true) env).2.1 = 0 ∧
      (getStats (newIfmon true) env).2.2 = 0 := by
  have hcond : ¬ (st.handlesOpen = false ∧ env.reopenOk = false) := by
    rcases hopen with h | h <;> simp [h]
  have hclosed :
      (getStats (closeInterfaces st) env).2.1 = 0 ∧
        (getStats (closeInterfaces st) env).2.2 = 0 := by
    by_cases hro : env.reopenOk = true
    · simp [getStats, closeInterfaces, hr, hs, hro]
    · simp [getStats, closeInterfaces, hro]
  have hnew :
      (getStats (newIfmon true) env).2.1 = 0 ∧
        (getStats (newIfmon true) env).2.2 = 0 := by
    simp [getStats, newIfmon, hr, hs]
  refine ⟨?_, ?_, ?_, ?_, hclosed.1, hclosed.2, hnew.1, hnew.2⟩
  · simp only [getStats, if_neg hcond, hr, hs]
    by_cases hz : st.lastSend = 0
    · simp [hz]
    · simp only [hz, if_false]
      exact sub64_of_le tx st.lastSend h1 htx
  · simp only [getStats, if_neg hcond, hr, hs]
    by_cases hz : st.lastRecv = 0
    · simp [hz]
    · simp only [hz, if_false]
      exact sub64_of_le rx st.lastRecv h2 hrx
  · simp [getStats, if_neg hcond, hr, hs]
  · simp [getStats, if_neg hcond, hr, hs]

/-- Witness for C6 at concrete counters (last = (100, 50), reads
(tx, rx) = (250, 80)). -/
theorem c6_getstats_witness :
    (({ reopenOk := false, readRecv := some 80, readSend := some 250 } :
        StatEnv).readRecv = some 80) ∧
      (getStats { lastSend := 100, lastRecv := 50, handlesOpen := true }
            { reopenOk := false, readRecv := some 80, readSend := some 250 }).2.1 =
        (if (100 : Nat) = 0 then 0 else 250 - 100) :=
  ⟨rfl,
    (c6_getstats_delta
      { lastSend := 100, lastRecv := 50, handlesOpen := true }
      { reopenOk := false, readRecv := some 80, readSend := some 250 }
      80 250 rfl rfl (Or.inl rfl) (by decide) (by decide) (by decide)
      (by decide)).1⟩

/-- C10.  When a successful read returns a nonzero cumulative value that is
smaller than the stored counter (a reset or wrap that does not produce a
read error), the uint64 subtraction wraps: the reported delta is
`2^64 - (last - new)`, a huge nonzero value, not zero. -/
theorem c10_counter_wrap (st : IfaceState) (env : StatEnv) (rx tx : Nat)
    (hr : env.readRecv = some rx) (hs : env.readSend = some tx)
    (hopen : st.handlesOpen = true ∨ env.reopenOk = true)
    (hls : st.lastSend < U64) (hlr : st.lastRecv < U64) :
    (0 < tx → tx < st.lastSend →
        (getStats st env).2.1 = U64 - (st.lastSend - tx) ∧
          (getStats st env).2.1 ≠ 0) ∧
      (0 < rx → rx < st.lastRecv →
        (getStats st env).2.2 = U64 - (st.lastRecv - rx) ∧
          (getStats st env).2.2 ≠ 0) := by
  have hcond : ¬ (st.handlesOpen = false ∧ env.reopenOk = false) := by
    rcases hopen with h | h <;> simp [h]
  simp only [getStats, if_neg hcond, hr, hs]
  constructor
  · intro htx hwrap
    have hz : ¬ st.lastSend = 0 := by omega
    simp only [hz, if_false]
    rw [sub64_wrap tx st.lastSend hwrap hls]
    have : U64 = 18446744073709551616 := rfl
    refine ⟨rfl, ?_⟩
    omega
  · intro hrx hwrap
    have hz : ¬ st.lastRecv = 0 := by omega
    simp only [hz, if_false]
    rw [sub64_wrap rx st.lastRecv hwrap hlr]
    have : U64 = 18446744073709551616 := rfl
    refine ⟨rfl, ?_⟩
    omega

/-- Witness for C10: counters read (tx, rx) = (10, 5) after stored
last = (100, 50), the spec's wrap scenario numbers. -/
theorem c10_counter_wrap_witness :
    (0 < (10 : Nat)) ∧
      ((getStats { lastSend := 100, lastRecv := 50, handlesOpen := true }
            { reopenOk := false, readRecv := some 5, readSend := some 10 }).2.1 =
          U64 - (100 - 10) ∧
        (getStats { lastSend := 100, lastRecv := 50, handlesOpen := true }
            { reopenOk := false, readRecv := some 5, readSend := some 10 }).2.1 ≠ 0) :=
  ⟨by decide,
    (c10_counter_wrap
        { lastSend := 100, lastRecv := 50, handlesOpen := true }
        { reopenOk := false, readRecv := some 5, readSend := some 10 }
        5 10 rfl rfl (Or.inl rfl) (by decide) (by decide)).1
      (by decide) (by decide)⟩

theorem bucketGet_put_self (b : Bucket) (k : String) (s : BWSample) :
    bucketGet (bucketPut b k s) k = some s := by
  induction b with
  | nil => simp [bucketPut, bucketGet]
  | cons hd rest ih =>
    obtain ⟨k1, v1⟩ := hd
    by_cases h : k1 = k
    · simp [bucketPut, h, bucketGet]
    · simp [bucketPut, h, bucketGet, ih]

theorem bucketPut_same (b : Bucket) (k : String) (s : BWSample)
    (h : bucketGet b k = some s) : bucketPut b k s = b := by
  induction b with
  | nil => simp [bucketGet] at h
  | cons hd rest ih =>
    obtain ⟨k1, v1⟩ := hd
    by_cases hk : k1 = k
    · subst hk
      have hv : v1 = s := by simpa [bucketGet] using h
      subst hv
      simp [bucketPut]
    · simp only [bucketGet, if_neg hk] at h
      simp [bucketPut, hk, ih h]

theorem bucketPut_of_none (b : Bucket) (k : String) (s : BWSample)
    (h : bucketGet b k = none) : bucketPut b k s = b ++ [(k, s)] := by
  induction b with
  | nil => simp [bucketPut]
  | cons hd rest ih =>
    obtain ⟨k1, v1⟩ := hd
    by_cases hk : k1 = k
    · simp [bucketGet, hk] at h
    · simp only [bucketGet, if_neg hk] at h
      simp [bucketPut, hk, ih h]

theorem updateVal_get_none (b : Bucket) (k : String) (s : BWSample)
    (h : bucketGet b k = none) :
    bucketGet (updateVal b k s) k = some s := by
  simp [updateVal, h, bucketGet_put_self]

theorem updateVal_get_some (b : Bucket) (k : String) (s v : BWSample)
    (h : bucketGet b k = some v) :
    bucketGet (updateVal b k s) k = some (v.Add s) := by
  simp [updateVal, h, bucketGet_put_self]

theorem foldl_updateVal_get (ss : List BWSample) (b : Bucket) (k : String)
    (v : BWSample) (hv : bucketGet b k = some v)
    (hvu : v.BytesUp < U64) (hvd : v.BytesDown < U64) :
    bucketGet (ss.foldl (fun bk s => updateVal bk k s) b) k =
      some
        { Ts := v.Ts
          BytesUp := (v.BytesUp + (ss.map BWSample.BytesUp).sum) % U64
          BytesDown := (v.BytesDown + (ss.map BWSample.BytesDown).sum) % U64 } := by
  induction ss generalizing b v with
  | nil =>
    simp only [List.foldl_nil, List.map_nil, List.sum_nil, Nat.add_zero, hv,
      Nat.mod_eq_of_lt hvu, Nat.mod_eq_of_lt hvd]
  | cons s rest ih =>
    have hstep := updateVal_get_some b k s v hv
    have hU : 0 < U64 := by decide
    have := ih (updateVal b k s) (v.Add s) hstep
      (Nat.mod_lt _ hU) (Nat.mod_lt _ hU)
    rw [List.foldl_cons, this]
    simp only [BWSample.Add, List.map_cons, List.sum_cons]
    congr 1
    congr 1
    · rw [Nat.mod_add_mod, Nat.add_assoc]
    · rw [Nat.mod_add_mod, Nat.add_assoc]

/-- C2 is refuted on the timestamp clause: insert-or-summing `csOld` then
`csNew` at one key stores the byte-count sums but keeps the FIRST
contributor's timestamp 100, not the maximal contributing timestamp 200
(`BWSample.Add` never touches `Ts`, and `updateVal` accumulates into the
previously stored value). -/
theorem c2_bucket_sum_counterexample :
    bucketGet (updateVal (updateVal [] "k" csOld) "k" csNew) "k" =
      some { Ts := 100, BytesUp := 3, BytesDown := 4 } ∧
      (100 : Int) ≠ max csOld.Ts csNew.Ts := by
  constructor
  · rfl
  · decide

/-- C2 amended.  For any bucket and key with no prior entry, after a
nonempty sequence of insert-or-sum operations the stored byte counts equal
the component-wise sums modulo 2^64 of every sample written to that
(bucket, key) pair, and the stored timestamp is the FIRST contributing
sample's timestamp (not the latest). -/
theorem c2_bucket_sum_amended (B : Bucket) (K : String) (s0 : BWSample)
    (rest : List BWSample) (h0 : bucketGet B K = none)
    (hu : s0.BytesUp < U64) (hd : s0.BytesDown < U64) :
    bucketGet ((s0 :: rest).foldl (fun bk s => updateVal bk K s) B) K =
      some
        { Ts := s0.Ts
          BytesUp := ((s0 :: rest).map BWSample.BytesUp).sum % U64
          BytesDown := ((s0 :: rest).map BWSample.BytesDown).sum % U64 } := by
  rw [List.foldl_cons]
  rw [foldl_updateVal_get rest (updateVal B K s0) K s0
    (updateVal_get_none B K s0 h0) hu hd]
  simp [List.map_cons, List.sum_cons]

/-- Witness for the amended C2 at the concrete two-sample input. -/
theorem c2_bucket_sum_witness :
    bucketGet ([] : Bucket) "k" = none ∧
      bucketGet
          (([(csOld), (csNew)]).foldl (fun bk s => updateVal bk "k" s) []) "k" =
        some
          { Ts := csOld.Ts
            BytesUp := (([(csOld), (csNew)]).map BWSample.BytesUp).sum % U64
            BytesDown :=
              (([(csOld), (csNew)]).map BWSample.BytesDown).sum % U64 } :=
  ⟨rfl,
    c2_bucket_sum_amended [] "k" csOld [csNew] rfl (by decide) (by decide)⟩

/-- C4 counterexample: running sum-and-shift with an empty source and an
empty destination writes the zero accumulator to the destination at the
put key, so the destination does NOT stay unchanged and an entry IS
created at the key. -/
theorem c4_empty_source_counterexample :
    (sumAndShift [] [] "x").2 = [("x", NewBwSample)] ∧
      (sumAndShift [] [] "x").2 ≠ ([] : Bucket) := by
  constructor
  · rfl
  · decide

/-- C4 amended.  With an empty source bucket the primitive still empties
the source and insert-or-sums the zero accumulator (`NewBwSample`: zero
timestamp, zero byte counts) into the destination at the put key: when the
key was absent a zero entry is appended there; when the key was present
(with in-range byte counts) the destination is left unchanged. -/
theorem c4_empty_source_amended (D : Bucket) (K : String) :
    (sumAndShift [] D K).1 = [] ∧
      (bucketGet D K = none →
        (sumAndShift [] D K).2 = D ++ [(K, NewBwSample)]) ∧
      (∀ v, bucketGet D K = some v → v.BytesUp < U64 → v.BytesDown < U64 →
        (sumAndShift [] D K).2 = D) := by
  refine ⟨rfl, ?_, ?_⟩
  · intro h
    simp only [sumAndShift, sumLoop, updateVal, h]
    exact bucketPut_of_none D K NewBwSample h
  · intro v hv hvu hvd
    simp only [sumAndShift, sumLoop, updateVal, hv]
    have hadd : v.Add NewBwSample = v := by
      cases v with
      | mk ts up down =>
        simp only [BWSample.Add, NewBwSample, Nat.add_zero] at *
        simp [Nat.mod_eq_of_lt hvu, Nat.mod_eq_of_lt hvd]
    rw [hadd]
    exact bucketPut_same D K v hv

/-- Witness for the amended C4 at a concrete occupied destination. -/
theorem c4_empty_source_witness :
    bucketGet [("k", csOld)] "k" = some csOld ∧
      (sumAndShift [] [("k", csOld)] "k").1 = [] ∧
      (sumAndShift [] [("k", csOld)] "k").2 = [("k", csOld)] :=
  ⟨rfl, (c4_empty_source_amended [("k", csOld)] "k").1,
    (c4_empty_source_amended [("k", csOld)] "k").2.2 csOld rfl (by decide)
      (by decide)⟩

theorem serviceLoop_written (n : String) (s : BWSample)
    (cs : List (Nat × LiveConsumer)) :
    (serviceLoop n s cs).2.1 = cs.map Prod.fst := by
  induction cs with
  | nil => rfl
  | cons hd rest ih =>
    obtain ⟨k1, c1⟩ := hd
    by_cases h : c1.writeOk n s = true <;>
      simp [serviceLoop, h, ih]

theorem serviceLoop_keys_sub (n : String) (s : BWSample)
    (cs : List (Nat × LiveConsumer)) (k : Nat)
    (h : k ∈ (serviceLoop n s cs).1.map Prod.fst) :
    k ∈ cs.map Prod.fst := by
  induction cs with
  | nil => simp [serviceLoop] at h
  | cons hd rest ih =>
    obtain ⟨k1, c1⟩ := hd
    by_cases hw : c1.writeOk n s = true
    · simp only [serviceLoop, hw, if_true, List.map_cons, List.mem_cons] at h
      rcases h with h | h
      · simp [h]
      · simp [List.mem_cons, ih h]
    · simp only [serviceLoop, hw, if_false, Bool.not_eq_true] at h
      simp only [Bool.false_eq_true, if_false] at h
      simp [List.mem_cons, ih h]

theorem serviceLoop_removed (n : String) (s : BWSample)
    (cs : List (Nat × LiveConsumer)) (k : Nat) (c : LiveConsumer)
    (hnd : (cs.map Prod.fst).Nodup) (hmem : (k, c) ∈ cs)
    (hfail : c.writeOk n s = false) :
    k ∉ (serviceLoop n s cs).1.map Prod.fst := by
  induction cs with
  | nil => simp at hmem
  | cons hd rest ih =>
    obtain ⟨k1, c1⟩ := hd
    simp only [List.map_cons, List.nodup_cons] at hnd
    rcases List.mem_cons.mp hmem with heq | htail
    · obtain ⟨hk, hc⟩ := Prod.mk.injEq .. ▸ heq
      subst hk
      subst hc
      simp only [serviceLoop, hfail, Bool.false_eq_true, if_false]
      intro hin
      exact hnd.1 (serviceLoop_keys_sub n s rest k hin)
    · have hk1 : k ≠ k1 := by
        intro h
        subst h
        exact hnd.1 (List.mem_map_of_mem Prod.fst htail)
      by_cases hw : c1.writeOk n s = true
      · simp only [serviceLoop, hw, if_true, List.map_cons, List.mem_cons]
        intro hin
        rcases hin with h | h
        · exact hk1 h
        · exact ih hnd.2 htail h
      · simp only [serviceLoop, hw, Bool.not_eq_true] at *
        simp only [Bool.false_eq_true, if_false]
        exact ih hnd.2 htail
    
theorem serviceLoop_closed (n : String) (s : BWSample)
    (cs : List (Nat × LiveConsumer)) (k : Nat) (c : LiveConsumer)
    (hmem : (k, c) ∈ cs) (hfail : c.writeOk n s = false) :
    k ∈ (serviceLoop n s cs).2.2 := by
  induction cs with
  | nil => simp at hmem
  | cons hd rest ih =>
    obtain ⟨k1, c1⟩ := hd
    rcases List.mem_cons.mp hmem with heq | htail
    · obtain ⟨hk, hc⟩ := Prod.mk.injEq .. ▸ heq
      subst hk
      subst hc
      simp [serviceLoop, hfail]
    · by_cases hw : c1.writeOk n s = true <;>
        simp [serviceLoop, hw, ih htail]

theorem serviceSeq_not_written (lf : LiveFeeder)
    (calls : List (String × BWSample)) (k : Nat)
    (h : k ∉ lf.liveConsumers.map Prod.fst) :
    k ∉ (serviceSeq lf calls).2 := by
  induction calls generalizing lf with
  | nil => simp [serviceSeq]
  | cons call rest ih =>
    obtain ⟨n, s⟩ := call
    simp only [serviceSeq, List.mem_append]
    intro hin
    rcases hin with hin | hin
    · rw [LiveFeeder.Service] at hin
      simp only [serviceLoop_written] at hin
      exact h hin
    · refine ih { lf with
        liveConsumers := (serviceLoop n s lf.liveConsumers).1 } ?_ hin
      intro hk
      exact h (serviceLoop_keys_sub n s lf.liveConsumers k hk)

/-- C9.  A subscriber whose Write fails during a broadcast is removed from
the subscriber map and Close is called on it; it is written to by no
subsequent broadcast sequence; and Service reports no error to the
producer. -/
theorem c9_fanout_detach (lf : LiveFeeder) (name : String) (s : BWSample)
    (k : Nat) (c : LiveConsumer)
    (hnd : (lf.liveConsumers.map Prod.fst).Nodup)
    (hmem : (k, c) ∈ lf.liveConsumers)
    (hfail : c.writeOk name s = false) :
    (lf.Service name s).err = none ∧
      k ∈ (lf.Service name s).closed ∧
      k ∉ (lf.Service name s).feeder.liveConsumers.map Prod.fst ∧
      ∀ calls : List (String × BWSample),
        k ∉ (serviceSeq (lf.Service name s).feeder calls).2 := by
  refine ⟨rfl, ?_, ?_, ?_⟩
  · exact serviceLoop_closed name s lf.liveConsumers k c hmem hfail
  · exact serviceLoop_removed name s lf.liveConsumers k c hnd hmem hfail
  · intro calls
    refine serviceSeq_not_written _ calls k ?_
    exact serviceLoop_removed name s lf.liveConsumers k c hnd hmem hfail

/-- Witness for C9 at the concrete fan-out: subscriber 2 errors once and
is closed, removed, and absent from a subsequent broadcast. -/
theorem c9_fanout_witness :
    (lfEx.liveConsumers.map Prod.fst).Nodup ∧
      (lfEx.Service "eth0" csOld).err = none ∧
      (2 : Nat) ∈ (lfEx.Service "eth0" csOld).closed ∧
      (2 : Nat) ∉ (lfEx.Service "eth0" csOld).feeder.liveConsumers.map Prod.fst ∧
      (2 : Nat) ∉ (serviceSeq (lfEx.Service "eth0" csOld).feeder
          [("eth0", csNew)]).2 := by
  have h := c9_fanout_detach lfEx "eth0" csOld 2 badConsumer (by decide)
    (List.Mem.tail _ (List.Mem.head _)) rfl
  exact ⟨by decide, h.1, h.2.1, h.2.2.1, h.2.2.2 [("eth0", csNew)]⟩

/-- C3 counterexample: on the very first insert (`last` is zero) with a
failing store, Add returns the storage error, yet `last` HAS been advanced
to the sample's timestamp — it is set before the batch runs. -/
theorem c3_add_error_counterexample :
    (dbFail.Add csNew).2 = some .storage ∧
      (dbFail.Add csNew).1.last = csNew.Ts ∧
      csNew.Ts ≠ zeroTime ∧ dbFail.last = zeroTime := by
  refine ⟨rfl, rfl, by decide, rfl⟩

/-- C3 amended.  On a storage error inside the atomic batch of Add the
store is unchanged (the batch rolls back) and the error is returned to the
caller, and `last` keeps its prior value — EXCEPT on the very first insert
when `last` was zero at entry: there `last` has already been set to the
sample's timestamp before the batch, and it stays so on error. -/
theorem c3_add_error_amended (db : Bwdb) (s : BWSample)
    (ho : db.dbOpen = true) (hio : s.After db.last = true)
    (hf : db.store.fail = true) :
    (db.Add s).2 = some .storage ∧
      (db.Add s).1.store = db.store ∧
      (db.Add s).1.last = (if db.last = zeroTime then s.Ts else db.last) := by
  simp only [Bwdb.Add, ho, hio, hf, Bool.true_eq_false, if_false, if_true]
  exact ⟨by trivial, by trivial, by trivial⟩

/-- Witness for the amended C3 at the concrete failing engine. -/
theorem c3_add_error_witness :
    dbFail.dbOpen = true ∧ csNew.After dbFail.last = true ∧
      dbFail.store.fail = true ∧
      (dbFail.Add csNew).2 = some .storage ∧
      (dbFail.Add csNew).1.last =
        (if dbFail.last = zeroTime then csNew.Ts else dbFail.last) := by
  have h := c3_add_error_amended dbFail csNew rfl (by decide) rfl
  exact ⟨rfl, by decide, rfl, h.1, h.2.2⟩

/-- C7.  A sample that is not after `last` is delegated by Add to the
out-of-order path, which succeeds, leaves `last` and the live ring
untouched, and insert-or-sums the sample into exactly one bucket chosen by
comparing clock components against `last`: the minute bucket when the
minutes-of-hour agree, else the hour bucket when the hours-of-day agree,
else the day bucket when the days-of-month agree, else the month bucket —
the three non-chosen buckets are unchanged. -/
theorem c7_out_of_order_dispatch (db : Bwdb) (s : BWSample)
    (ho : db.dbOpen = true) (hf : db.store.fail = false)
    (hio : s.After db.last = false) :
    (db.Add s).2 = none ∧
      (db.Add s).1.last = db.last ∧
      (db.Add s).1.hist = db.hist ∧
      (minuteOf s.Ts = minuteOf db.last →
        (db.Add s).1.store.min = updateVal db.store.min (fmtLabel .min s.Ts) s ∧
          (db.Add s).1.store.hour = db.store.hour ∧
          (db.Add s).1.store.day = db.store.day ∧
          (db.Add s).1.store.mon = db.store.mon) ∧
      (minuteOf s.Ts ≠ minuteOf db.last → hourOf s.Ts = hourOf db.last →
        (db.Add s).1.store.min = db.store.min ∧
          (db.Add s).1.store.hour =
            updateVal db.store.hour (fmtLabel .hour s.Ts) s ∧
          (db.Add s).1.store.day = db.store.day ∧
          (db.Add s).1.store.mon = db.store.mon) ∧
      (minuteOf s.Ts ≠ minuteOf db.last → hourOf s.Ts ≠ hourOf db.last →
        dayOf s.Ts = dayOf db.last →
        (db.Add s).1.store.min = db.store.min ∧
          (db.Add s).1.store.hour = db.store.hour ∧
          (db.Add s).1.store.day =
            updateVal db.store.day (fmtLabel .day s.Ts) s ∧
          (db.Add s).1.store.mon = db.store.mon) ∧
      (minuteOf s.Ts ≠ minuteOf db.last → hourOf s.Ts ≠ hourOf db.last →
        dayOf s.Ts ≠ dayOf db.last →
        (db.Add s).1.store.min = db.store.min ∧
          (db.Add s).1.store.hour = db.store.hour ∧
          (db.Add s).1.store.day = db.store.day ∧
          (db.Add s).1.store.mon =
            updateVal db.store.mon (fmtLabel .mon s.Ts) s) := by
  have hdel : db.Add s = db.addOutOfOrder s := by
    simp [Bwdb.Add, ho, hio]
  rw [hdel]
  simp only [Bwdb.addOutOfOrder, ho, Bool.true_eq_false, if_false, hf,
    Bool.false_eq_true]
  refine ⟨by trivial, by trivial, by trivial, ?_, ?_, ?_, ?_⟩
  · intro hmin
    simp [hmin, storeUpd, Store.set, Store.get]
  · intro hmin hhour
    simp [hmin, hhour, storeUpd, Store.set, Store.get]
  · intro hmin hhour hday
    simp [hmin, hhour, hday, storeUpd, Store.set, Store.get]
  · intro hmin hhour hday
    simp [hmin, hhour, hday, storeUpd, Store.set, Store.get]

/-- Witness for C7: the sample one hour back but on the same minute-of-hour
lands in the minute bucket and the hour bucket is untouched. -/
theorem c7_out_of_order_witness :
    sC7.After dbC7.last = false ∧ minuteOf sC7.Ts = minuteOf dbC7.last ∧
      (dbC7.Add sC7).2 = none ∧
      (dbC7.Add sC7).1.store.hour = dbC7.store.hour ∧
      (dbC7.Add sC7).1.store.min =
        updateVal dbC7.store.min (fmtLabel .min sC7.Ts) sC7 := by
  have h := c7_out_of_order_dispatch dbC7 sC7 rfl rfl (by decide)
  have hmin : minuteOf sC7.Ts = minuteOf dbC7.last := by decide
  exact ⟨by decide, hmin, h.1, (h.2.2.2.1 hmin).2.1, (h.2.2.2.1 hmin).1⟩

theorem after_eq_true (s : BWSample) (t : Int) (h : t ≤ s.Ts) :
    s.After t = true := by
  simp only [BWSample.After, Bool.not_eq_true']
  exact decide_eq_false (by omega)

theorem Store.fail_set (st : Store) (i : BktId) (b : Bucket) :
    (st.set i b).fail = st.fail := by
  cases i <;> rfl

theorem storeUpd_fail (st : Store) (i : BktId) (k : String) (s : BWSample) :
    (storeUpd st i k s).fail = st.fail :=
  Store.fail_set st i _

theorem sumShiftStore_fail (st : Store) (src dst : BktId) (k : String) :
    (sumShiftStore st src dst k).fail = st.fail := by
  simp [sumShiftStore, Store.fail_set]

theorem addBatch_fail (st : Store) (s : BWSample) (l : Int) :
    (addBatch st s l).fail = st.fail := by
  simp only [addBatch, storeUpd_fail, apply_ite Store.fail, sumShiftStore_fail,
    ite_self]

theorem add_inorder (db : Bwdb) (s : BWSample) (ho : db.dbOpen = true)
    (hf : db.store.fail = false) (hio : db.last ≤ s.Ts) :
    (db.Add s).2 = none ∧
      (db.Add s).1.hist = (s :: db.hist).take db.histSize ∧
      (db.Add s).1.last = s.Ts ∧
      (db.Add s).1.dbOpen = true ∧
      (db.Add s).1.store.fail = false ∧
      (db.Add s).1.histSize = db.histSize := by
  have hafter : s.After db.last = true := after_eq_true s db.last hio
  simp only [Bwdb.Add, ho, hafter, hf, Bool.true_eq_false, if_false,
    Bool.false_eq_true]
  refine ⟨by trivial, by trivial, by trivial, by trivial, ?_, by trivial⟩
  rw [addBatch_fail]
  exact hf

theorem take_append_take (a l : List BWSample) (n : Nat) :
    (a ++ l.take n).take n = (a ++ l).take n := by
  rw [List.take_append_eq_append_take, List.take_append_eq_append_take,
    List.take_take]
  congr 1
  rw [Nat.min_eq_left (Nat.sub_le n a.length)]

theorem addAll_spec (ss : List BWSample) (db : Bwdb)
    (ho : db.dbOpen = true) (hf : db.store.fail = false)
    (hlen : db.hist.length ≤ db.histSize)
    (hle : ∀ x ∈ ss, db.last ≤ x.Ts)
    (hsort : ss.Pairwise (fun a b => a.Ts ≤ b.Ts)) :
    (addAll db ss).hist = (ss.reverse ++ db.hist).take db.histSize ∧
      (addAll db ss).histSize = db.histSize := by
  induction ss generalizing db with
  | nil => simp [addAll, List.take_of_length_le hlen]
  | cons s rest ih =>
    have h := add_inorder db s ho hf (hle s (List.mem_cons_self s rest))
    have hrest :
        ∀ x ∈ rest, (db.Add s).1.last ≤ x.Ts := by
      intro x hx
      rw [h.2.2.1]
      exact (List.pairwise_cons.mp hsort).1 x hx
    have hlen1 : (db.Add s).1.hist.length ≤ (db.Add s).1.histSize := by
      rw [h.2.1, h.2.2.2.2.2, List.length_take]
      exact Nat.min_le_left _ _
    have := ih (db.Add s).1 h.2.2.2.1 h.2.2.2.2.1 hlen1 hrest
      (List.pairwise_cons.mp hsort).2
    rw [addAll] at *
    refine ⟨?_, by rw [this.2, h.2.2.2.2.2]⟩
    rw [this.1, h.2.1, h.2.2.2.2.2, take_append_take, List.reverse_cons,
      List.append_assoc, List.singleton_append]

theorem head?_take_pos (l : List BWSample) (n : Nat) (h : 0 < n) :
    (l.take n).head? = l.head? := by
  cases l with
  | nil => simp
  | cons x t =>
    cases n with
    | zero => omega
    | succ m => simp [List.take]

/-- C8.  The live ring never exceeds the configured capacity (Add preserves
the bound on every path); NewBwDb coerces non-positive configured sizes to
the default 60 and the capacity is always positive; and after `N ≥ L`
successful in-order inserts from a fresh engine the ring has length exactly
`L` with its front element the most recently inserted sample. -/
theorem c8_live_ring_bound (l : Int) (db : Bwdb) (s : BWSample)
    (ss : List BWSample)
    (hlen : db.hist.length ≤ db.histSize)
    (hz : ∀ x ∈ ss, zeroTime ≤ x.Ts)
    (hsort : ss.Pairwise (fun a b => a.Ts ≤ b.Ts))
    (hN : (NewBwDb l).histSize ≤ ss.length) :
    (db.Add s).1.hist.length ≤ db.histSize ∧
      (l ≤ 0 → (NewBwDb l).histSize = defaultHistSize) ∧
      0 < (NewBwDb l).histSize ∧
      (addAll (NewBwDb l) ss).hist.length = (NewBwDb l).histSize ∧
      (addAll (NewBwDb l) ss).hist.head? = ss.getLast? := by
  have hpos : 0 < (NewBwDb l).histSize := by
    simp only [NewBwDb]
    by_cases hl : l ≤ 0
    · simp [hl, defaultHistSize]
    · simp only [hl, if_false]
      omega
  have hspec := addAll_spec ss (NewBwDb l) rfl rfl (by simp [NewBwDb])
    (by intro x hx; exact hz x hx) hsort
  refine ⟨?_, ?_, hpos, ?_, ?_⟩
  · by_cases ho : db.dbOpen = false
    · simp [Bwdb.Add, ho, hlen]
    · by_cases hio : s.After db.last = false
      · by_cases hfail : db.store.fail = true <;>
          simp [Bwdb.Add, Bwdb.addOutOfOrder, ho, hio, hfail, hlen]
      · by_cases hfail : db.store.fail = true <;>
          · simp only [Bwdb.Add, ho, hio, hfail, Bool.true_eq_false,
              Bool.false_eq_true, if_false, if_true]
            simp [List.length_take]
  · intro hl
    simp [NewBwDb, hl]
  · rw [hspec.1]
    have hh : (NewBwDb l).hist = [] := rfl
    rw [hh, List.append_nil, List.length_take, List.length_reverse]
    exact Nat.min_eq_left hN
  · rw [hspec.1]
    have hh : (NewBwDb l).hist = [] := rfl
    rw [hh, List.append_nil, head?_take_pos _ _ hpos, List.head?_reverse]

theorem shiftEntries_mem (l : List (String × BWSample)) (tc : Int)
    (fmt : TsFmt) (dst : Bucket) :
    ∀ kv ∈ (shiftEntries l tc fmt dst).1, tc ≤ kv.2.Ts := by
  induction l generalizing dst with
  | nil =>
    intro kv h
    simp [shiftEntries] at h
  | cons hd rest ih =>
    obtain ⟨k, v⟩ := hd
    intro kv hkv
    by_cases hlt : v.Ts < tc
    · simp only [shiftEntries, if_pos hlt] at hkv
      exact ih _ kv hkv
    · simp only [shiftEntries, if_neg hlt] at hkv
      rcases List.mem_cons.mp hkv with heq | htail
      · subst heq
        exact Int.not_lt.mp hlt
      · exact ih dst kv htail

theorem shiftIfOlder_ok (st : Store) (src dst : BktId) (tc : Int)
    (fmt : TsFmt) (hf : st.fail = false) :
    shiftIfOlder st src dst tc fmt =
      .ok
        ((st.set src (shiftEntries (st.get src) tc fmt (st.get dst)).1).set
          dst (shiftEntries (st.get src) tc fmt (st.get dst)).2) := by
  simp [shiftIfOlder, hf]

theorem startOfCurrentHour_le_prevHour (t : Int) :
    startOfCurrentHour t ≤ prevHour t := by
  simp only [startOfCurrentHour, prevHour, nsHour]
  omega

theorem startOfCurrentDay_le_prevDay (t : Int) :
    startOfCurrentDay t ≤ prevDay t := by
  simp only [startOfCurrentDay, prevDay, nsDay]
  omega

/-- C1 amended.  After a successful `Rebase(T)` every entry remaining in
the minute bucket has timestamp ≥ start-of-current-hour(T) (the code's
cutoff `prevHour T` is even one hour later), every entry remaining in the
hour bucket has timestamp ≥ start-of-current-day(T), but every entry
remaining in the day bucket is only guaranteed timestamp ≥ `prevMon T`,
the start of the month BEFORE T's month — not start-of-current-month(T):
day entries of the previous month survive the rebase. -/
theorem c1_rebase_residency_amended (db : Bwdb) (T : Int)
    (ho : db.dbOpen = true) (hf : db.store.fail = false) :
    (db.Rebase T).2 = none ∧
      (∀ kv ∈ (db.Rebase T).1.store.min, startOfCurrentHour T ≤ kv.2.Ts) ∧
      (∀ kv ∈ (db.Rebase T).1.store.hour, startOfCurrentDay T ≤ kv.2.Ts) ∧
      (∀ kv ∈ (db.Rebase T).1.store.day, prevMon T ≤ kv.2.Ts) := by
  have hcond : ¬ db.dbOpen = false := by simp [ho]
  have hf1 :
      ((db.store.set .min
          (shiftEntries (db.store.get .min) (prevHour T) .hour
            (db.store.get .hour)).1).set .hour
          (shiftEntries (db.store.get .min) (prevHour T) .hour
            (db.store.get .hour)).2).fail = false := by
    rw [Store.fail_set, Store.fail_set]
    exact hf
  simp only [Bwdb.Rebase, if_neg hcond, shiftIfOlder_ok _ _ _ _ _ hf]
  simp only [shiftIfOlder_ok _ _ _ _ _ hf1]
  rw [shiftIfOlder_ok _ _ _ _ _
    (by rw [Store.fail_set, Store.fail_set]; exact hf1)]
  simp only [Store.get, Store.set]
  refine ⟨by trivial, ?_, ?_, ?_⟩
  · intro kv hkv
    have := shiftEntries_mem (db.store.min) (prevHour T) .hour
      (db.store.hour) kv hkv
    have hle := startOfCurrentHour_le_prevHour T
    omega
  · intro kv hkv
    have := shiftEntries_mem _ (prevDay T) .day _ kv hkv
    have hle := startOfCurrentDay_le_prevDay T
    omega
  · intro kv hkv
    exact shiftEntries_mem _ (prevMon T) .mon _ kv hkv

/-- C1 counterexample: rebasing at 2016-02-15 succeeds but the day bucket
still holds the 2016-01-20 entry, whose timestamp is BEFORE the start of
the current month — `prevMon` cuts at the start of the PREVIOUS month, so
the claim's day-bucket clause fails. -/
theorem c1_rebase_counterexample :
    (dbReb.Rebase febT).2 = none ∧
      ¬ (∀ kv ∈ (dbReb.Rebase febT).1.store.day,
          startOfCurrentMonth febT ≤ kv.2.Ts) := by
  constructor
  · decide
  · decide

/-- Witness for the amended C1 at the concrete January-entry engine. -/
theorem c1_rebase_residency_witness :
    dbReb.dbOpen = true ∧ dbReb.store.fail = false ∧
      (dbReb.Rebase febT).2 = none ∧
      prevMon febT ≤ dayEntryJan.2.Ts := by
  have h := c1_rebase_residency_amended dbReb febT rfl rfl
  refine ⟨rfl, rfl, h.1, ?_⟩
  exact h.2.2.2 dayEntryJan (by decide)

/-- Witness for C8: capacity 2 and three in-order inserts leave a ring of
length exactly 2 fronted by the last sample. -/
theorem c8_live_ring_witness :
    ((NewBwDb 2).histSize ≤ ([csOld, csNew, cs3] : List BWSample).length) ∧
      (addAll (NewBwDb 2) [csOld, csNew, cs3]).hist.length =
        (NewBwDb 2).histSize ∧
      (addAll (NewBwDb 2) [csOld, csNew, cs3]).hist.head? = some cs3 ∧
      ((NewBwDb 2).Add csOld).1.hist.length ≤ (NewBwDb 2).histSize := by
  have h := c8_live_ring_bound 2 (NewBwDb 2) csOld [csOld, csNew, cs3]
    (by decide) (by decide) (by decide) (by decide)
  refine ⟨by decide, h.2.2.2.1, ?_, h.1⟩
  rw [h.2.2.2.2]
  decide
